import Mathlib

/-
  Verification of `loader_hub/local_github_repo/base.py`
  (`LocalGithubRepositoryReader`).

  Shallow embedding:
  * file bytes are `List Nat`; `bytes.decode("utf-8")` is modelled by a
    strict UTF-8 decoder `utf8Decode` returning `Option String`;
  * the filesystem under the configured root is a tree `FSTree` (with a
    companion list type `FSList` so that all recursion is structural); a
    directory carries a `readable` flag (can `os.scandir` list it?) and a
    file carries `Option (List Nat)` (`none` models a file whose
    `open(file_path, "rb")` raises an `OSError`);
  * `os.walk(root)` with its default `onerror=None` (which silently
    ignores directories that cannot be listed) is `loadTriples`: the list
    of `(relative directory, files)` pairs actually visited, with the
    in-place pruning `dirs[:] = [d for d in dirs if d not in
    ignore_directories]` applied before descending;
  * the external extractor registry `DEFAULT_FILE_EXTRACTOR` and the
    extractors behind it are collaborators outside this repository, so
    they are a parameter `Registry`; an extractor's `parse_file` behaviour
    on given bytes is one of: raising, returning an `ImageParserOutput`,
    or returning a sequence of text segments;
  * `llama_index`'s `Document(text, doc_id, extra_info)` is flattened into
    a structure whose `file_path`/`file_name` fields are the two
    `extra_info` entries the reader writes;
  * errors that escape `load_data` are the `Except.error` case; the
    per-extraction temporary file's existence after `_parse_supported_file`
    returns is threaded explicitly as a `Bool` so that the `finally:
    os.remove(tmpfile.name)` cleanup is visible in the model.
-/

namespace LocalGithubRepo

/-! Section: UTF-8 decoding, modelling Python `bytes.decode("utf-8")` (strict) -/

/-- Is `b` a UTF-8 continuation byte (`0x80 ≤ b < 0xC0`)? -/
def utf8Cont (b : Nat) : Bool :=
  decide (128 ≤ b) && decide (b < 192)

/-- Fuel-indexed strict UTF-8 decoder: rejects truncated sequences, stray
continuation bytes, overlong encodings, surrogates and code points above
`0x10FFFF`, exactly as Python's strict `bytes.decode("utf-8")` does.
Each step consumes at least one byte, so fuel `bs.length` suffices. -/
def utf8DecodeCore : Nat → List Nat → Option (List Char)
  | _, [] => some []
  | 0, _ :: _ => none
  | fuel + 1, b :: bs =>
    if b < 128 then
      (utf8DecodeCore fuel bs).map (fun cs => Char.ofNat b :: cs)
    else if b < 194 then
      none
    else if b < 224 then
      match bs with
      | b1 :: bs1 =>
        if utf8Cont b1 then
          (utf8DecodeCore fuel bs1).map
            (fun cs => Char.ofNat ((b - 192) * 64 + (b1 - 128)) :: cs)
        else none
      | [] => none
    else if b < 240 then
      match bs with
      | b1 :: b2 :: bs2 =>
        if utf8Cont b1 && utf8Cont b2 then
          let cp := (b - 224) * 4096 + (b1 - 128) * 64 + (b2 - 128)
          if cp < 2048 then none
          else if 55296 ≤ cp && cp < 57344 then none
          else (utf8DecodeCore fuel bs2).map (fun cs => Char.ofNat cp :: cs)
        else none
      | _ => none
    else if b < 245 then
      match bs with
      | b1 :: b2 :: b3 :: bs3 =>
        if utf8Cont b1 && utf8Cont b2 && utf8Cont b3 then
          let cp := (b - 240) * 262144 + (b1 - 128) * 4096
                    + (b2 - 128) * 64 + (b3 - 128)
          if cp < 65536 then none
          else if 1114112 ≤ cp then none
          else (utf8DecodeCore fuel bs3).map (fun cs => Char.ofNat cp :: cs)
        else none
      | _ => none
    else none

/-- Model of `file_content.decode("utf-8")`: `some` of the decoded string,
or `none` when the bytes are not valid UTF-8 (a `UnicodeDecodeError`). -/
def utf8Decode (bs : List Nat) : Option String :=
  (utf8DecodeCore bs.length bs).map fun cs => String.mk cs

/-! Section: `get_file_extension`, built on `os.path.splitext` (POSIX) -/

/-- Final path component of a character list: everything after the last
`'/'` (what `os.path.splitext` restricts its search to on POSIX). -/
def lastComponent (cs : List Char) : List Char :=
  cs.foldl (fun acc c => if c = '/' then [] else acc ++ [c]) []

/-- Suffix of the list starting at its last `'.'`, if any. -/
def takeExtAux : List Char → Option (List Char)
  | [] => none
  | c :: rest =>
    match takeExtAux rest with
    | some e => some e
    | none => if c = '.' then some (c :: rest) else none

/-- Model of `os.path.splitext(p)[1]` on POSIX: the extension of the final
path component, including its dot; empty when the component has no dot, or
when every character before its last dot is itself a dot (so dotfiles like
`.bashrc` have no extension). -/
def splitextExt (p : String) : String :=
  let base := lastComponent p.data
  match takeExtAux base with
  | none => ""
  | some suf =>
    if (base.take (base.length - suf.length)).any (fun c => c ≠ '.') then
      String.mk suf
    else ""

/-- Model of Python `str.lower()` on one character: `A`–`Z` map to
`a`–`z`; other characters are unchanged (file extensions here are ASCII,
where Python's `lower` and this model agree). -/
def lowerChar (c : Char) : Char :=
  if 65 ≤ c.toNat ∧ c.toNat ≤ 90 then Char.ofNat (c.toNat + 32) else c

/-- Model of Python `str.lower()`. -/
def strLower (s : String) : String :=
  String.mk (s.data.map lowerChar)

/-- Model of the source's `get_file_extension`:
`f".\x7bos.path.splitext(filename)[1][1:].lower()\x7d"` — the splitext
extension with its leading dot stripped (`[1:]`), lowercased, and a dot
prepended again. Note that when there is no extension this yields `"."`. -/
def get_file_extension (filename : String) : String :=
  "." ++ strLower (String.mk (splitextExt filename).data.tail)

/-! Section: Data model -/

/-- Model of `llama_index` `Document(text, doc_id, extra_info)`; the two
`extra_info` entries this reader writes are flattened into fields. -/
structure Document where
  text : String
  doc_id : Option String
  file_path : String
  file_name : String
deriving Repr, DecidableEq

/-- An error escaping `load_data`: the only uncaught exception in the
per-file loop is `open(file_path, "rb")` raising (for example on a
permission error or a dangling symlink). -/
inductive LoadError where
  | openError (path : String)
deriving Repr, DecidableEq

/-- Constructor arguments of `LocalGithubRepositoryReader` other than the
root path (the root is passed to `load_data` directly). The source's
use-parser flag is spelled `useParser` here. -/
structure LoaderConfig where
  useParser : Bool
  verbose : Bool
  ignore_file_extensions : Option (List String)
  ignore_directories : Option (List String)
deriving Repr, DecidableEq

/-- Outcome of invoking an external extractor's `parse_file` on the bytes
written to the temporary file: it may raise, return an
`ImageParserOutput`, or return a sequence of text segments. -/
inductive ParseOutcome where
  | raisesExc
  | image
  | segments (segs : List String)
deriving Repr, DecidableEq

/-- Behaviour of one registered extractor, as a function of the file
bytes handed to it through the temporary file. -/
abbrev Extractor := List Nat → ParseOutcome

/-- The external `DEFAULT_FILE_EXTRACTOR` mapping, queried by the
(lowercased, dot-prefixed) extension string. -/
abbrev Registry := String → Option Extractor

/-! Section: Filesystem and `os.walk` traversal -/

mutual
/-- A filesystem entry under the root. `readable = false` on a directory
means `os.scandir` raises when listing it; `content = none` on a file
means `open(path, "rb")` raises. -/
inductive FSTree where
  | file (name : String) (content : Option (List Nat))
  | dir (name : String) (readable : Bool) (entries : FSList)
deriving Repr

/-- A directory listing: a list of filesystem entries (a separate
inductive, so that all recursion over the tree is structural). -/
inductive FSList where
  | nil
  | cons (head : FSTree) (tail : FSList)
deriving Repr
end

/-- Convenience constructor for directory listings from list literals. -/
def fsList : List FSTree → FSList
  | [] => .nil
  | e :: rest => .cons e (fsList rest)

/-- The plain files among a directory's entries, in listing order: the
`files` component of an `os.walk` triple. -/
def filesOf : FSList → List (String × Option (List Nat))
  | .nil => []
  | .cons (.file n c) rest => (n, c) :: filesOf rest
  | .cons (.dir _ _ _) rest => filesOf rest

/-- Test of `d not in self._ignore_directories` (negated): `false` when
the ignore list is `None`. -/
def dirIgnored (cfg : LoaderConfig) (n : String) : Bool :=
  match cfg.ignore_directories with
  | none => false
  | some l => decide (n ∈ l)

/-- Test of `get_file_extension(file_path) in self._ignore_file_extensions`:
`false` when the ignore list is `None`. -/
def extIgnoredB (cfg : LoaderConfig) (p : String) : Bool :=
  match cfg.ignore_file_extensions with
  | none => false
  | some l => decide (get_file_extension p ∈ l)

/-- An `os.walk` triple restricted to what the reader uses: the directory
path relative to the root (as components) and its plain files. -/
abbrev Triple := List String × List (String × Option (List Nat))

mutual
/-- Triples yielded by `os.walk` for the subtree rooted at one entry of a
directory whose relative path is `rd`, after the parent applied the
in-place pruning `dirs[:] = [d for d in dirs if d not in
ignore_directories]`. A pruned subdirectory is never descended into; an
unreadable one is attempted but, with `os.walk`'s default `onerror=None`,
yields nothing and is skipped silently. -/
def walkTree (cfg : LoaderConfig) (rd : List String) : FSTree → List Triple
  | .file _ _ => []
  | .dir n r sub =>
    if dirIgnored cfg n then []
    else if r then (rd ++ [n], filesOf sub) :: walkEntries cfg (rd ++ [n]) sub
    else []

/-- Triples yielded by `os.walk` strictly below a directory with relative
path `rd` and the given entries. -/
def walkEntries (cfg : LoaderConfig) (rd : List String) : FSList → List Triple
  | .nil => []
  | .cons e rest => walkTree cfg rd e ++ walkEntries cfg rd rest
end

/-- All triples yielded by `os.walk(root)`: the root itself first (with
relative path `[]`; when the root cannot be listed or does not exist,
`os.walk` yields nothing at all), then the pruned descent. -/
def loadTriples (cfg : LoaderConfig) (rootReadable : Bool)
    (rootEntries : FSList) : List Triple :=
  if rootReadable then ([], filesOf rootEntries) :: walkEntries cfg [] rootEntries
  else []

mutual
/-- Every file in this subtree (inside readable directories or not) has
openable content. -/
def treeOpenable : FSTree → Bool
  | .file _ c => c.isSome
  | .dir _ _ sub => allOpenable sub

/-- Every file anywhere under these entries has openable content. -/
def allOpenable : FSList → Bool
  | .nil => true
  | .cons e rest => treeOpenable e && allOpenable rest
end

/-! Section: `_parse_supported_file` and `load_data` -/

/-- Relative path string built from components, as produced by
`os.path.relpath(os.path.join(root, ...), root)` on POSIX. -/
def joinPath (parts : List String) : String :=
  String.intercalate "/" parts

/-- Model of `_parse_supported_file(file_path, file_content, tree_sha,
tree_path)`, paired with whether the per-extraction temporary file still
exists when the call returns. When no extractor is registered for the
extension, no temporary file is ever created. Otherwise the temporary
file is created and filled, `parse_file` runs inside `try`
(an `ImageParserOutput` result raises a `ValueError` that the bare
`except Exception` also catches, leaving `parsed_file = None`), the
segments are joined with `"\n\n"`, and the `finally: os.remove` deletes
the temporary file on success and failure alike. -/
def parse_supported_file_run (reg : Registry) (file_path : String)
    (file_content : List Nat) (tree_sha : Option String) (tree_path : String) :
    Option Document × Bool :=
  match reg (get_file_extension file_path) with
  | none => (none, false)
  | some extractor =>
    let _tmpExistsDuringParse := true
    let parsed_file : Option String :=
      match extractor file_content with
      | .segments segs => some (String.intercalate "\n\n" segs)
      | .image => none
      | .raisesExc => none
    let tmpExists := false
    match parsed_file with
    | none => (none, tmpExists)
    | some text => (some ⟨text, tree_sha, file_path, tree_path⟩, tmpExists)

/-- The `Optional[Document]` returned by `_parse_supported_file`. -/
def parse_supported_file (reg : Registry) (file_path : String)
    (file_content : List Nat) (tree_sha : Option String) (tree_path : String) :
    Option Document :=
  (parse_supported_file_run reg file_path file_content tree_sha tree_path).1

/-- The raw-decode-path Document built in `load_data`: decoded text,
`doc_id=None`, `file_path` relative to the root and `file_name` equal to
`os.path.basename(file_path)`. -/
def rawDocument (rd : List String) (name : String) (s : String) : Document :=
  ⟨s, none, joinPath (rd ++ [name]), name⟩

/-- One iteration of the `for file in files` loop of `load_data` for the
file `f` in the directory with relative components `rd`, returning the
documents contributed by this file (or the uncaught open error):
1. if the extension is in `ignore_file_extensions`, `continue` — before
   the file is ever opened;
2. `open(file_path, "rb")` — a file that cannot be opened raises out of
   `load_data`;
3. if `useParser`, call `_parse_supported_file` (with `tree_sha=None` and
   `tree_path=rel_path`); a `None` result means `continue`, skipping the
   raw-decode path for this file, while a Document is appended and
   processing falls through to the raw decode;
4. decode the original bytes as UTF-8; a `UnicodeDecodeError` means
   `continue`, otherwise the raw-decode Document is appended. -/
def processFile (cfg : LoaderConfig) (reg : Registry) (rd : List String)
    (f : String × Option (List Nat)) : Except LoadError (List Document) :=
  let name := f.1
  let relPath := joinPath (rd ++ [name])
  if extIgnoredB cfg relPath then .ok []
  else
    match f.2 with
    | none => .error (.openError relPath)
    | some content =>
      if cfg.useParser then
        match parse_supported_file reg relPath content none relPath with
        | some d =>
          match utf8Decode content with
          | none => .ok [d]
          | some s => .ok [d, rawDocument rd name s]
        | none => .ok []
      else
        match utf8Decode content with
        | none => .ok []
        | some s => .ok [rawDocument rd name s]

/-- The whole `for file in files` loop over one `os.walk` triple. -/
def processFiles (cfg : LoaderConfig) (reg : Registry) (rd : List String) :
    List (String × Option (List Nat)) → Except LoadError (List Document)
  | [] => .ok []
  | f :: rest =>
    match processFile cfg reg rd f with
    | .error e => .error e
    | .ok ds =>
      match processFiles cfg reg rd rest with
      | .error e => .error e
      | .ok rest1 => .ok (ds ++ rest1)

/-- The outer `for root, dirs, files in os.walk(...)` loop. -/
def processTriples (cfg : LoaderConfig) (reg : Registry) :
    List Triple → Except LoadError (List Document)
  | [] => .ok []
  | t :: rest =>
    match processFiles cfg reg t.1 t.2 with
    | .error e => .error e
    | .ok ds =>
      match processTriples cfg reg rest with
      | .error e => .error e
      | .ok rest1 => .ok (ds ++ rest1)

/-- Model of `LocalGithubRepositoryReader.load_data`, for a reader
configured with `cfg` over a root directory whose listability is
`rootReadable` and whose entries are `rootEntries`, against the external
extractor registry `reg`. -/
def load_data (cfg : LoaderConfig) (reg : Registry) (rootReadable : Bool)
    (rootEntries : FSList) : Except LoadError (List Document) :=
  processTriples cfg reg (loadTriples cfg rootReadable rootEntries)

/-! Section: Helper lemmas -/

/-- Characterisation of a successful `_parse_supported_file` call: it
requires a registered extractor returning segments, and the resulting
Document carries the joined segments, `doc_id = tree_sha`,
`file_path = file_path` and `file_name = tree_path`. -/
theorem parse_supported_file_eq_some {reg : Registry} {p : String}
    {c : List Nat} {ts : Option String} {tp : String} {d : Document}
    (h : parse_supported_file reg p c ts tp = some d) :
    ∃ x segs, reg (get_file_extension p) = some x ∧ x c = .segments segs ∧
      d = ⟨String.intercalate "\n\n" segs, ts, p, tp⟩ := by
  unfold parse_supported_file parse_supported_file_run at h
  rcases hr : reg (get_file_extension p) with _ | x <;> simp only [hr] at h
  · simp at h
  · rcases ho : x c with _ | _ | segs <;> simp only [ho] at h
    · simp at h
    · simp at h
    · simp at h
      exact ⟨x, segs, rfl, ho, h.symm⟩

/-- A registered extractor that returns segments yields exactly the
Document with the blank-line-joined text. -/
theorem parse_supported_file_segments {reg : Registry} {p : String}
    {c : List Nat} {ts : Option String} {tp : String} {x : Extractor}
    {segs : List String} (hr : reg (get_file_extension p) = some x)
    (ho : x c = .segments segs) :
    parse_supported_file reg p c ts tp =
      some ⟨String.intercalate "\n\n" segs, ts, p, tp⟩ := by
  unfold parse_supported_file parse_supported_file_run
  simp only [hr, ho]

/-- Without a registered extractor `_parse_supported_file` returns `None`. -/
theorem parse_supported_file_none {reg : Registry} {p : String}
    {c : List Nat} {ts : Option String} {tp : String}
    (hr : reg (get_file_extension p) = none) :
    parse_supported_file reg p c ts tp = none := by
  unfold parse_supported_file parse_supported_file_run
  simp only [hr]

/-- A raising extractor makes `_parse_supported_file` return `None`. -/
theorem parse_supported_file_raising {reg : Registry} {p : String}
    {c : List Nat} {ts : Option String} {tp : String} {x : Extractor}
    (hr : reg (get_file_extension p) = some x) (ho : x c = .raisesExc) :
    parse_supported_file reg p c ts tp = none := by
  unfold parse_supported_file parse_supported_file_run
  simp only [hr, ho]

/-- The temporary file never survives `_parse_supported_file`, on any
path: either it was never created (no registered extractor) or the
`finally: os.remove` deleted it. -/
theorem parse_supported_file_tmp_removed (reg : Registry) (p : String)
    (c : List Nat) (ts : Option String) (tp : String) :
    (parse_supported_file_run reg p c ts tp).2 = false := by
  unfold parse_supported_file_run
  rcases hr : reg (get_file_extension p) with _ | x <;> simp only [hr]
  · rcases ho : x c with _ | _ | segs <;> simp only [ho]

/-- A file whose extension is in the ignore set contributes nothing, and
its content is never consulted (the lemma holds even for `content = none`,
a file that could not be opened). -/
theorem processFile_ignored {cfg : LoaderConfig} (reg : Registry)
    {rd : List String} {n : String} (c : Option (List Nat))
    (h : extIgnoredB cfg (joinPath (rd ++ [n])) = true) :
    processFile cfg reg rd (n, c) = .ok [] := by
  unfold processFile
  simp only [h, if_true]

/-- A retained file that cannot be opened raises out of `load_data`. -/
theorem processFile_open_fails {cfg : LoaderConfig} (reg : Registry)
    {rd : List String} {n : String}
    (h : extIgnoredB cfg (joinPath (rd ++ [n])) = false) :
    processFile cfg reg rd (n, none) =
      .error (.openError (joinPath (rd ++ [n]))) := by
  unfold processFile
  simp only [h, if_false, Bool.false_eq_true]

/-- With `useParser` enabled, a file for which `_parse_supported_file`
returns `None` is skipped entirely: the `else: continue` bypasses the
raw-decode path. -/
theorem processFile_parser_none {cfg : LoaderConfig} {reg : Registry}
    {rd : List String} {n : String} {c : List Nat}
    (hu : cfg.useParser = true)
    (hi : extIgnoredB cfg (joinPath (rd ++ [n])) = false)
    (hp : parse_supported_file reg (joinPath (rd ++ [n])) c none
            (joinPath (rd ++ [n])) = none) :
    processFile cfg reg rd (n, some c) = .ok [] := by
  unfold processFile
  simp only [hi, hu, hp, Bool.false_eq_true, if_false, if_true]

/-- With `useParser` enabled and a successful extraction, the extraction
Document is appended and the raw-decode path still runs. -/
theorem processFile_parser_some {cfg : LoaderConfig} {reg : Registry}
    {rd : List String} {n : String} {c : List Nat} {d : Document}
    (hu : cfg.useParser = true)
    (hi : extIgnoredB cfg (joinPath (rd ++ [n])) = false)
    (hp : parse_supported_file reg (joinPath (rd ++ [n])) c none
            (joinPath (rd ++ [n])) = some d) :
    processFile cfg reg rd (n, some c) =
      match utf8Decode c with
      | none => .ok [d]
      | some s => .ok [d, rawDocument rd n s] := by
  unfold processFile
  simp only [hi, hu, hp, Bool.false_eq_true, if_false, if_true]

/-- With `useParser` disabled, only the raw-decode path runs. -/
theorem processFile_raw_only {cfg : LoaderConfig} (reg : Registry)
    {rd : List String} {n : String} {c : List Nat}
    (hu : cfg.useParser = false)
    (hi : extIgnoredB cfg (joinPath (rd ++ [n])) = false) :
    processFile cfg reg rd (n, some c) =
      match utf8Decode c with
      | none => .ok []
      | some s => .ok [rawDocument rd n s] := by
  unfold processFile
  simp only [hi, hu, Bool.false_eq_true, if_false]

/-- A file whose bytes could be read never raises: the per-file loop body
always runs to `continue` or to an append. -/
theorem processFile_some_isOk (cfg : LoaderConfig) (reg : Registry)
    (rd : List String) (n : String) (c : List Nat) :
    ∃ ds, processFile cfg reg rd (n, some c) = .ok ds := by
  by_cases hi : extIgnoredB cfg (joinPath (rd ++ [n])) = true
  · exact ⟨[], processFile_ignored reg _ hi⟩
  · have hi1 : extIgnoredB cfg (joinPath (rd ++ [n])) = false := by simpa using hi
    by_cases hu : cfg.useParser = true
    · rcases hp : parse_supported_file reg (joinPath (rd ++ [n])) c none
          (joinPath (rd ++ [n])) with _ | d0
      · exact ⟨[], processFile_parser_none hu hi1 hp⟩
      · rcases hs : utf8Decode c with _ | s
        · exact ⟨[d0], by rw [processFile_parser_some hu hi1 hp]; simp [hs]⟩
        · exact ⟨[d0, rawDocument rd n s],
            by rw [processFile_parser_some hu hi1 hp]; simp [hs]⟩
    · have hu1 : cfg.useParser = false := by simpa using hu
      rcases hs : utf8Decode c with _ | s
      · exact ⟨[], by rw [processFile_raw_only reg hu1 hi1]; simp [hs]⟩
      · exact ⟨[rawDocument rd n s],
          by rw [processFile_raw_only reg hu1 hi1]; simp [hs]⟩

/-- Each retained file contributes at most two Documents. -/
theorem processFile_length_le_two {cfg : LoaderConfig} {reg : Registry}
    {rd : List String} {f : String × Option (List Nat)}
    {ds : List Document}
    (h : processFile cfg reg rd f = .ok ds) : ds.length ≤ 2 := by
  rcases f with ⟨n, c⟩
  by_cases hi : extIgnoredB cfg (joinPath (rd ++ [n])) = true
  · rw [processFile_ignored reg c hi] at h
    injection h with h; subst h; simp
  · have hi1 : extIgnoredB cfg (joinPath (rd ++ [n])) = false := by simpa using hi
    rcases c with _ | c
    · rw [processFile_open_fails reg hi1] at h; simp at h
    · by_cases hu : cfg.useParser = true
      · rcases hp : parse_supported_file reg (joinPath (rd ++ [n])) c none
            (joinPath (rd ++ [n])) with _ | d0
        · rw [processFile_parser_none hu hi1 hp] at h
          injection h with h; subst h; simp
        · rw [processFile_parser_some hu hi1 hp] at h
          rcases hs : utf8Decode c with _ | s <;> simp only [hs] at h <;>
            injection h with h <;> subst h <;> simp
      · have hu1 : cfg.useParser = false := by simpa using hu
        rw [processFile_raw_only reg hu1 hi1] at h
        rcases hs : utf8Decode c with _ | s <;> simp only [hs] at h <;>
          injection h with h <;> subst h <;> simp

/-- Provenance of a Document emitted for one file: the file was not
filtered out, its content was readable, and the Document is either the
extraction-path Document (the successful `_parse_supported_file` result,
called with `tree_sha=None` and `tree_path` equal to the relative path)
or the raw-decode Document. -/
theorem processFile_mem {cfg : LoaderConfig} {reg : Registry}
    {rd : List String} {f : String × Option (List Nat)}
    {ds : List Document} {d : Document}
    (h : processFile cfg reg rd f = .ok ds) (hd : d ∈ ds) :
    extIgnoredB cfg (joinPath (rd ++ [f.1])) = false ∧
    ∃ c, f.2 = some c ∧
      (parse_supported_file reg (joinPath (rd ++ [f.1])) c none
          (joinPath (rd ++ [f.1])) = some d
       ∨ ∃ s, utf8Decode c = some s ∧ d = rawDocument rd f.1 s) := by
  rcases f with ⟨n, c⟩
  by_cases hi : extIgnoredB cfg (joinPath (rd ++ [n])) = true
  · rw [processFile_ignored reg c hi] at h
    injection h with h; subst h; simp at hd
  · have hi1 : extIgnoredB cfg (joinPath (rd ++ [n])) = false := by simpa using hi
    refine ⟨hi1, ?_⟩
    rcases c with _ | c
    · rw [processFile_open_fails reg hi1] at h; simp at h
    · refine ⟨c, rfl, ?_⟩
      by_cases hu : cfg.useParser = true
      · rcases hp : parse_supported_file reg (joinPath (rd ++ [n])) c none
            (joinPath (rd ++ [n])) with _ | d0
        · rw [processFile_parser_none hu hi1 hp] at h
          injection h with h; subst h; simp at hd
        · rw [processFile_parser_some hu hi1 hp] at h
          rcases hs : utf8Decode c with _ | s <;> simp only [hs] at h <;>
            injection h with h <;> subst h <;> simp at hd
          · subst hd; exact Or.inl rfl
          · rcases hd with hd | hd
            · subst hd; exact Or.inl rfl
            · exact Or.inr ⟨s, rfl, hd⟩
      · have hu1 : cfg.useParser = false := by simpa using hu
        rw [processFile_raw_only reg hu1 hi1] at h
        rcases hs : utf8Decode c with _ | s <;> simp only [hs] at h <;>
          injection h with h <;> subst h <;> simp at hd
        subst hd
        exact Or.inr ⟨s, rfl, rfl⟩

/-- Provenance through the inner file loop. -/
theorem processFiles_mem {cfg : LoaderConfig} {reg : Registry}
    {rd : List String} {d : Document} :
    ∀ {fs : List (String × Option (List Nat))} {ds : List Document},
      processFiles cfg reg rd fs = .ok ds → d ∈ ds →
      ∃ f ∈ fs, ∃ ds1, processFile cfg reg rd f = .ok ds1 ∧ d ∈ ds1 := by
  intro fs
  induction fs with
  | nil => intro ds h hd; unfold processFiles at h; injection h with h; subst h; simp at hd
  | cons f rest ih =>
    intro ds h hd
    unfold processFiles at h
    rcases h1 : processFile cfg reg rd f with e | ds1 <;> simp only [h1] at h
    · simp at h
    · rcases h2 : processFiles cfg reg rd rest with e | ds2 <;> simp only [h2] at h
      · simp at h
      · injection h with h; subst h
        rcases List.mem_append.1 hd with hd | hd
        · exact ⟨f, by simp, ds1, h1, hd⟩
        · rcases ih h2 hd with ⟨f1, hf1, ds3, h3, hd3⟩
          exact ⟨f1, by simp [hf1], ds3, h3, hd3⟩

/-- Provenance through the outer walk loop. -/
theorem processTriples_mem {cfg : LoaderConfig} {reg : Registry}
    {d : Document} :
    ∀ {ts : List Triple} {ds : List Document},
      processTriples cfg reg ts = .ok ds → d ∈ ds →
      ∃ t ∈ ts, ∃ ds1, processFiles cfg reg t.1 t.2 = .ok ds1 ∧ d ∈ ds1 := by
  intro ts
  induction ts with
  | nil => intro ds h hd; unfold processTriples at h; injection h with h; subst h; simp at hd
  | cons t rest ih =>
    intro ds h hd
    unfold processTriples at h
    rcases h1 : processFiles cfg reg t.1 t.2 with e | ds1 <;> simp only [h1] at h
    · simp at h
    · rcases h2 : processTriples cfg reg rest with e | ds2 <;> simp only [h2] at h
      · simp at h
      · injection h with h; subst h
        rcases List.mem_append.1 hd with hd | hd
        · exact ⟨t, by simp, ds1, h1, hd⟩
        · rcases ih h2 hd with ⟨t1, ht1, ds3, h3, hd3⟩
          exact ⟨t1, by simp [ht1], ds3, h3, hd3⟩

/-- Provenance through the whole load: every emitted Document comes from
processing some file of some visited `os.walk` triple. -/
theorem load_mem {cfg : LoaderConfig} {reg : Registry} {r : Bool}
    {l : FSList} {ds : List Document} {d : Document}
    (h : load_data cfg reg r l = .ok ds) (hd : d ∈ ds) :
    ∃ t ∈ loadTriples cfg r l, ∃ f ∈ t.2, ∃ ds1,
      processFile cfg reg t.1 f = .ok ds1 ∧ d ∈ ds1 := by
  rcases processTriples_mem h hd with ⟨t, ht, ds1, h1, hd1⟩
  rcases processFiles_mem h1 hd1 with ⟨f, hf, ds2, h2, hd2⟩
  exact ⟨t, ht, f, hf, ds2, h2, hd2⟩

/-- The inner file loop never raises when every listed file is openable. -/
theorem processFiles_ok {cfg : LoaderConfig} {reg : Registry}
    {rd : List String} :
    ∀ {fs : List (String × Option (List Nat))},
      (∀ f ∈ fs, (f.2).isSome) →
      ∃ ds, processFiles cfg reg rd fs = .ok ds := by
  intro fs
  induction fs with
  | nil => exact fun _ => ⟨[], rfl⟩
  | cons f rest ih =>
    intro hall
    rcases f with ⟨n, c⟩
    have hc : c.isSome := hall (n, c) (by simp)
    rcases c with _ | c
    · simp at hc
    · rcases processFile_some_isOk cfg reg rd n c with ⟨ds1, h1⟩
      rcases ih (fun f hf => hall f (by simp [hf])) with ⟨ds2, h2⟩
      refine ⟨ds1 ++ ds2, ?_⟩
      unfold processFiles
      simp only [h1, h2]

/-- The outer loop never raises when every file of every visited triple
is openable. -/
theorem processTriples_ok {cfg : LoaderConfig} {reg : Registry} :
    ∀ {ts : List Triple},
      (∀ t ∈ ts, ∀ f ∈ t.2, (f.2).isSome) →
      ∃ ds, processTriples cfg reg ts = .ok ds := by
  intro ts
  induction ts with
  | nil => exact fun _ => ⟨[], rfl⟩
  | cons t rest ih =>
    intro hall
    rcases @processFiles_ok cfg reg t.1 t.2 (hall t (by simp)) with ⟨ds1, h1⟩
    rcases ih (fun t1 ht1 => hall t1 (by simp [ht1])) with ⟨ds2, h2⟩
    refine ⟨ds1 ++ ds2, ?_⟩
    unfold processTriples
    simp only [h1, h2]

/-- All files listed directly in a listing with openable contents are
openable. -/
theorem filesOf_openable : ∀ (l : FSList), allOpenable l = true →
    ∀ f ∈ filesOf l, (f.2).isSome
  | .nil, _, f, hf => by simp [filesOf] at hf
  | .cons (.file n c) rest, h, f, hf => by
    rw [allOpenable, treeOpenable] at h
    simp only [Bool.and_eq_true] at h
    rw [filesOf] at hf
    rcases List.mem_cons.1 hf with hf | hf
    · subst hf; exact h.1
    · exact filesOf_openable rest h.2 f hf
  | .cons (.dir n r sub) rest, h, f, hf => by
    rw [allOpenable] at h
    simp only [Bool.and_eq_true] at h
    rw [filesOf] at hf
    exact filesOf_openable rest h.2 f hf

/-- Every triple reached by the walk below entries whose files are all
openable again lists only openable files. -/
theorem walkEntries_files_openable (cfg : LoaderConfig) :
    ∀ (l : FSList) (rd : List String), allOpenable l = true →
      ∀ t ∈ walkEntries cfg rd l, ∀ f ∈ t.2, (f.2).isSome
  | .nil, rd, _, t, ht => by simp [walkEntries] at ht
  | .cons (.file n c) rest, rd, h, t, ht => by
    rw [allOpenable] at h
    simp only [Bool.and_eq_true] at h
    rw [walkEntries, walkTree] at ht
    simp only [List.nil_append] at ht
    exact walkEntries_files_openable cfg rest rd h.2 t ht
  | .cons (.dir n r sub) rest, rd, h, t, ht => by
    rw [allOpenable, treeOpenable] at h
    simp only [Bool.and_eq_true] at h
    rw [walkEntries, walkTree] at ht
    rcases List.mem_append.1 ht with h1 | h2
    · by_cases hig : dirIgnored cfg n = true
      · simp [hig] at h1
      · simp only [hig, if_false, Bool.false_eq_true] at h1
        rcases hr : r with _ | _ <;> rw [hr] at h1
        · simp at h1
        · simp only [if_true] at h1
          rcases List.mem_cons.1 h1 with h1 | h1
          · subst h1
            exact filesOf_openable sub h.1
          · exact walkEntries_files_openable cfg sub (rd ++ [n]) h.1 t h1
    · exact walkEntries_files_openable cfg rest rd h.2 t h2

/-- Pruning invariant of the walk: when `ignore_directories` is a set
`ds`, a descent started at a relative path avoiding `ds` only ever visits
relative paths avoiding `ds` — the ignored directories are cut before
descent, so nothing below them is visited. -/
theorem walkEntries_avoid {cfg : LoaderConfig} {ds : List String}
    (h : cfg.ignore_directories = some ds) :
    ∀ (l : FSList) (rd : List String), (∀ c ∈ rd, c ∉ ds) →
      ∀ t ∈ walkEntries cfg rd l, ∀ c ∈ t.1, c ∉ ds
  | .nil, rd, _, t, ht => by simp [walkEntries] at ht
  | .cons (.file n c) rest, rd, hrd, t, ht => by
    rw [walkEntries, walkTree] at ht
    simp only [List.nil_append] at ht
    exact walkEntries_avoid h rest rd hrd t ht
  | .cons (.dir n r sub) rest, rd, hrd, t, ht => by
    rw [walkEntries, walkTree] at ht
    rcases List.mem_append.1 ht with h1 | h2
    · by_cases hig : dirIgnored cfg n = true
      · simp [hig] at h1
      · have hn : n ∉ ds := by
          rw [dirIgnored, h] at hig
          simpa using hig
        have hrd1 : ∀ c ∈ rd ++ [n], c ∉ ds := by
          intro c hc
          rcases List.mem_append.1 hc with hc | hc
          · exact hrd c hc
          · simp at hc; subst hc; exact hn
        simp only [hig, if_false, Bool.false_eq_true] at h1
        rcases hr : r with _ | _ <;> rw [hr] at h1
        · simp at h1
        · simp only [if_true] at h1
          rcases List.mem_cons.1 h1 with h1 | h1
          · subst h1; exact hrd1
          · exact walkEntries_avoid h sub (rd ++ [n]) hrd1 t h1
    · exact walkEntries_avoid h rest rd hrd t h2

/-- Does a load outcome carry a document list (as opposed to an escaped
exception)? -/
def loadOk : Except LoadError (List Document) → Bool
  | .ok _ => true
  | .error _ => false

/-- No visited `os.walk` triple lies at or below a directory whose name
is in the configured `ignore_directories`. -/
theorem loadTriples_avoid {cfg : LoaderConfig} {ds : List String}
    (h : cfg.ignore_directories = some ds) (r : Bool) (l : FSList) :
    ∀ t ∈ loadTriples cfg r l, ∀ c ∈ t.1, c ∉ ds := by
  intro t ht
  unfold loadTriples at ht
  rcases r with _ | _
  · simp at ht
  · simp only [if_true] at ht
    rcases List.mem_cons.1 ht with ht | ht
    · subst ht; intro c hc; simp at hc
    · exact walkEntries_avoid h l [] (by intro c hc; simp at hc) t ht

/-- Field values of any Document a file contributes: `doc_id` is always
`None` (the extraction call site passes `tree_sha=None`), `file_path` is
the path relative to the root, and `file_name` is either that same
relative path (extraction path, where the call site passes
`tree_path=rel_path`) or the base name (raw-decode path). -/
theorem processFile_doc_fields {cfg : LoaderConfig} {reg : Registry}
    {rd : List String} {f : String × Option (List Nat)}
    {ds : List Document} {d : Document}
    (h : processFile cfg reg rd f = .ok ds) (hd : d ∈ ds) :
    d.doc_id = none ∧ d.file_path = joinPath (rd ++ [f.1]) ∧
    (d.file_name = joinPath (rd ++ [f.1]) ∨ d.file_name = f.1) := by
  rcases processFile_mem h hd with ⟨-, c, -, hor⟩
  rcases hor with hp | ⟨s, -, hraw⟩
  · rcases parse_supported_file_eq_some hp with ⟨x, segs, -, -, hdd⟩
    subst hdd; exact ⟨rfl, rfl, Or.inl rfl⟩
  · subst hraw; exact ⟨rfl, rfl, Or.inr rfl⟩

/-! Section: Claims -/

/-- Claim C1, counterexample. The spec says a plain UTF-8 file with no
registered extractor yields exactly one Document. With the default
`useParser true`, `_parse_supported_file` returns `None` for such a file
(no registered extractor), and `load_data`'s `else: continue` then skips
the raw-decode path too, so the spec-section-8.7 tree yields zero
Documents, not one: the `.py` file decodes as UTF-8 and has no extractor,
yet nothing is emitted. -/
theorem c1_counterexample :
    load_data ⟨true, false, some [".png"], some ["node_modules"]⟩
      (fun _ => none) true
      (fsList
        [.dir "src" true (fsList [.file "main.py" (some [112, 114, 105, 110, 116])]),
         .dir "node_modules" true (fsList [.file "x.js" (some [118, 97, 114])]),
         .file "image.png" (some [137, 80])]) = .ok []
    ∧ utf8Decode [112, 114, 105, 110, 116] = some "print"
    ∧ (fun (_ : String) => (none : Option Extractor)) ".py" = none := by
  refine ⟨rfl, by decide, rfl⟩

/-- Claim C1, amended: only when delegated extraction is disabled
(`useParser false`) does a plain UTF-8 file with no registered extractor
yield exactly one Document, whose text is the decoded content and whose
`file_path` is the path relative to the root; with `useParser true` such
a file yields no Document at all. The end-to-end scenario of spec §8.7
yields exactly one Document for `src/main.py` under `useParser false`. -/
theorem c1_unparsed_utf8_file_single_document :
    (∀ (cfg : LoaderConfig) (reg : Registry) (rd : List String) (n : String)
        (c : List Nat) (s : String),
        cfg.useParser = false →
        extIgnoredB cfg (joinPath (rd ++ [n])) = false →
        utf8Decode c = some s →
        processFile cfg reg rd (n, some c) =
          .ok [⟨s, none, joinPath (rd ++ [n]), n⟩])
    ∧ (∀ (cfg : LoaderConfig) (reg : Registry) (rd : List String) (n : String)
        (c : List Nat),
        cfg.useParser = true →
        reg (get_file_extension (joinPath (rd ++ [n]))) = none →
        processFile cfg reg rd (n, some c) = .ok [])
    ∧ load_data ⟨false, false, some [".png"], some ["node_modules"]⟩
        (fun _ => none) true
        (fsList
          [.dir "src" true (fsList [.file "main.py" (some [112, 114, 105, 110, 116])]),
           .dir "node_modules" true (fsList [.file "x.js" (some [118, 97, 114])]),
           .file "image.png" (some [137, 80])]) =
        .ok [⟨"print", none, "src/main.py", "main.py"⟩] := by
  refine ⟨?_, ?_, rfl⟩
  · intro cfg reg rd n c s hu hi hs
    rw [processFile_raw_only reg hu hi]
    simp only [hs]
    rfl
  · intro cfg reg rd n c hu hr
    by_cases hi : extIgnoredB cfg (joinPath (rd ++ [n])) = true
    · exact processFile_ignored reg _ hi
    · exact processFile_parser_none hu (by simpa using hi)
        (parse_supported_file_none hr)

/-- Claim C1, witness. -/
theorem c1_witness :
    processFile ⟨false, false, none, none⟩ (fun _ => none) []
      ("a.txt", some [104, 105]) = .ok [⟨"hi", none, "a.txt", "a.txt"⟩] :=
  c1_unparsed_utf8_file_single_document.1 ⟨false, false, none, none⟩
    (fun _ => none) [] "a.txt" [104, 105] "hi" rfl (by decide) (by decide)

/-- Claim C2, counterexample. The spec says a directory that cannot be
enumerated aborts the whole load with an error. In the code `os.walk` is
used with its default `onerror=None`, which silently ignores listing
failures: a root whose only child directory is unreadable loads
successfully with an empty result instead of propagating an error. -/
theorem c2_counterexample :
    load_data ⟨true, false, none, none⟩ (fun _ => none) true
      (fsList [.dir "secret" false (fsList [.file "x.txt" (some [104, 105])])]) =
      .ok [] := rfl

/-- Claim C2, amended: directory-enumeration failures (including an
unreadable or missing root) never abort the load — `os.walk` silently
skips them, so whenever every file in the tree can be opened the load
returns a result; the condition that does abort the load is a retained
file whose `open(file_path, "rb")` raises. -/
theorem c2_enumeration_failures_skipped_open_aborts :
    (∀ (cfg : LoaderConfig) (reg : Registry) (r : Bool) (l : FSList),
        allOpenable l = true → loadOk (load_data cfg reg r l) = true)
    ∧ (∀ (cfg : LoaderConfig) (reg : Registry) (rd : List String) (n : String),
        extIgnoredB cfg (joinPath (rd ++ [n])) = false →
        processFile cfg reg rd (n, none) =
          .error (.openError (joinPath (rd ++ [n])))) := by
  constructor
  · intro cfg reg r l hall
    have hfiles : ∀ t ∈ loadTriples cfg r l, ∀ f ∈ t.2, (f.2).isSome := by
      intro t ht
      unfold loadTriples at ht
      rcases r with _ | _
      · simp at ht
      · simp only [if_true] at ht
        rcases List.mem_cons.1 ht with ht | ht
        · subst ht; exact filesOf_openable l hall
        · exact walkEntries_files_openable cfg l [] hall t ht
    rcases @processTriples_ok cfg reg (loadTriples cfg r l) hfiles with ⟨ds, hds⟩
    unfold load_data
    rw [hds]
    rfl
  · intro cfg reg rd n hi
    exact processFile_open_fails reg hi

/-- Claim C2, witness. -/
theorem c2_witness :
    loadOk (load_data ⟨true, false, none, none⟩ (fun _ => none) true
      (fsList [.dir "secret" false (fsList [.file "x.txt" (some [104, 105])]),
               .file "top.txt" (some [104])])) = true
    ∧ processFile ⟨true, false, none, none⟩ (fun _ => none) []
        ("locked.bin", none) = .error (.openError "locked.bin") :=
  ⟨c2_enumeration_failures_skipped_open_aborts.1 ⟨true, false, none, none⟩
      (fun _ => none) true _ (by decide),
   c2_enumeration_failures_skipped_open_aborts.2 ⟨true, false, none, none⟩
      (fun _ => none) [] "locked.bin" (by decide)⟩

/-- Claim C3, counterexample. The spec claims every emitted Document has
non-empty text. An empty file decodes (as UTF-8) to the empty string and
the raw-decode path emits a Document whose `text` is `""`. -/
theorem c3_counterexample :
    load_data ⟨false, false, none, none⟩ (fun _ => none) true
      (fsList [.file "empty.txt" (some [])]) =
      .ok [⟨"", none, "empty.txt", "empty.txt"⟩] := rfl

/-- Claim C3, amended: a file for which both the delegated extraction
returns no Document and the raw UTF-8 decode fails contributes no
Document; but emitted Documents can have empty text (an empty file
decodes to `""`). -/
theorem c3_failed_both_paths_no_document :
    ∀ (cfg : LoaderConfig) (reg : Registry) (rd : List String) (n : String)
      (c : List Nat),
      utf8Decode c = none →
      (cfg.useParser = true →
        parse_supported_file reg (joinPath (rd ++ [n])) c none
          (joinPath (rd ++ [n])) = none) →
      processFile cfg reg rd (n, some c) = .ok [] := by
  intro cfg reg rd n c hs hp
  by_cases hi : extIgnoredB cfg (joinPath (rd ++ [n])) = true
  · exact processFile_ignored reg _ hi
  · have hi1 : extIgnoredB cfg (joinPath (rd ++ [n])) = false := by simpa using hi
    by_cases hu : cfg.useParser = true
    · exact processFile_parser_none hu hi1 (hp hu)
    · have hu1 : cfg.useParser = false := by simpa using hu
      rw [processFile_raw_only reg hu1 hi1]
      simp only [hs]

/-- Claim C3, witness. -/
theorem c3_witness :
    processFile ⟨true, false, none, none⟩ (fun _ => none) []
      ("img.bin", some [137, 80]) = .ok [] :=
  c3_failed_both_paths_no_document ⟨true, false, none, none⟩ (fun _ => none)
    [] "img.bin" [137, 80] (by decide) (fun _ => rfl)

/-- Claim C4: each retained file contributes at most two Documents, and
when the delegated extraction succeeds and the raw UTF-8 decode also
succeeds, exactly two Documents are emitted for the file — the extraction
Document followed by the raw-decode Document (duplicate textual
representations of the same file). -/
theorem c4_zero_one_or_two_documents :
    (∀ (cfg : LoaderConfig) (reg : Registry) (rd : List String)
        (f : String × Option (List Nat)) (ds : List Document),
        processFile cfg reg rd f = .ok ds → ds.length ≤ 2)
    ∧ (∀ (cfg : LoaderConfig) (reg : Registry) (rd : List String) (n : String)
        (c : List Nat) (d : Document) (s : String),
        cfg.useParser = true →
        extIgnoredB cfg (joinPath (rd ++ [n])) = false →
        parse_supported_file reg (joinPath (rd ++ [n])) c none
          (joinPath (rd ++ [n])) = some d →
        utf8Decode c = some s →
        processFile cfg reg rd (n, some c) = .ok [d, rawDocument rd n s]) := by
  constructor
  · intro cfg reg rd f ds h
    exact processFile_length_le_two h
  · intro cfg reg rd n c d s hu hi hp hs
    rw [processFile_parser_some hu hi hp]
    simp only [hs]

/-- Claim C4, witness. -/
theorem c4_witness :
    processFile ⟨true, false, none, none⟩
      (fun e => if e = ".md" then
          some (fun _ => ParseOutcome.segments ["a", "b"]) else none) []
      ("a.md", some [104, 105]) =
      .ok [⟨"a\n\nb", none, "a.md", "a.md"⟩, rawDocument [] "a.md" "hi"] :=
  c4_zero_one_or_two_documents.2 ⟨true, false, none, none⟩
    (fun e => if e = ".md" then
        some (fun _ => ParseOutcome.segments ["a", "b"]) else none)
    [] "a.md" [104, 105] ⟨"a\n\nb", none, "a.md", "a.md"⟩ "hi"
    rfl (by decide) rfl (by decide)

/-- Claim C5: a registered extractor that succeeds with a sequence of
segments produces the Document whose text is the segments joined with
blank-line separators (`"\n\n"`), and the temporary file used for the
extraction no longer exists when `_parse_supported_file` returns — on
every path (no extractor, raising extractor, image output, success). -/
theorem c5_segments_joined_and_tmp_removed :
    (∀ (reg : Registry) (p : String) (c : List Nat) (ts : Option String)
        (tp : String) (x : Extractor) (segs : List String),
        reg (get_file_extension p) = some x → x c = .segments segs →
        parse_supported_file reg p c ts tp =
          some ⟨String.intercalate "\n\n" segs, ts, p, tp⟩)
    ∧ (∀ (reg : Registry) (p : String) (c : List Nat) (ts : Option String)
        (tp : String), (parse_supported_file_run reg p c ts tp).2 = false) := by
  constructor
  · intro reg p c ts tp x segs hr ho
    exact parse_supported_file_segments hr ho
  · intro reg p c ts tp
    exact parse_supported_file_tmp_removed reg p c ts tp

/-- Claim C5, witness. -/
theorem c5_witness :
    parse_supported_file
      (fun e => if e = ".pdf" then
          some (fun _ => ParseOutcome.segments ["hello", "world"]) else none)
      "doc.pdf" [1, 2] none "doc.pdf" =
      some ⟨"hello\n\nworld", none, "doc.pdf", "doc.pdf"⟩ :=
  c5_segments_joined_and_tmp_removed.1
    (fun e => if e = ".pdf" then
        some (fun _ => ParseOutcome.segments ["hello", "world"]) else none)
    "doc.pdf" [1, 2] none "doc.pdf" (fun _ => ParseOutcome.segments ["hello", "world"])
    ["hello", "world"] rfl rfl

/-- Claim C6, counterexample. The spec says that after an extractor
raises, the raw-decode path is still evaluated for that file. In the code
a raising extractor makes `_parse_supported_file` return `None`, and
`load_data`'s `else: continue` then skips the raw decode entirely: a
UTF-8-decodable `.txt` file with a raising extractor yields zero
Documents (the raw path would have produced one). -/
theorem c6_counterexample :
    load_data ⟨true, false, none, none⟩
      (fun e => if e = ".txt" then some (fun _ => ParseOutcome.raisesExc) else none)
      true (fsList [.file "a.txt" (some [104, 105])]) = .ok []
    ∧ utf8Decode [104, 105] = some "hi" := by
  exact ⟨rfl, by decide⟩

/-- Claim C6, amended: when a registered extractor raises, the load
completes without error and produces no extraction-path Document for the
file — and, because extraction produced no Document, the `else: continue`
skips the raw-decode path as well, so the file contributes no Document at
all. -/
theorem c6_raising_extractor_no_documents :
    ∀ (cfg : LoaderConfig) (reg : Registry) (rd : List String) (n : String)
      (c : List Nat) (x : Extractor),
      cfg.useParser = true →
      reg (get_file_extension (joinPath (rd ++ [n]))) = some x →
      x c = .raisesExc →
      processFile cfg reg rd (n, some c) = .ok [] := by
  intro cfg reg rd n c x hu hr ho
  by_cases hi : extIgnoredB cfg (joinPath (rd ++ [n])) = true
  · exact processFile_ignored reg _ hi
  · exact processFile_parser_none hu (by simpa using hi)
      (parse_supported_file_raising hr ho)

/-- Claim C6, witness. -/
theorem c6_witness :
    processFile ⟨true, false, none, none⟩
      (fun e => if e = ".txt" then some (fun _ => ParseOutcome.raisesExc) else none)
      [] ("a.txt", some [104, 105]) = .ok [] :=
  c6_raising_extractor_no_documents ⟨true, false, none, none⟩
    (fun e => if e = ".txt" then some (fun _ => ParseOutcome.raisesExc) else none)
    [] "a.txt" [104, 105] (fun _ => ParseOutcome.raisesExc) rfl rfl rfl

/-- Claim C7: with `ignore_directories` configured, no visited `os.walk`
triple has a relative-path component in the ignore set (matching
subdirectories are pruned before descent, so their contents are never
visited), and every Document of a successful load has a `file_path` whose
directory components all avoid the ignore set — no file beneath an
ignored directory appears in the output, at any depth. -/
theorem c7_ignored_directories_pruned :
    ∀ (cfg : LoaderConfig) (ds : List String) (reg : Registry) (r : Bool)
      (l : FSList),
      cfg.ignore_directories = some ds →
      (∀ t ∈ loadTriples cfg r l, ∀ c ∈ t.1, c ∉ ds)
      ∧ (∀ docs, load_data cfg reg r l = .ok docs → ∀ d ∈ docs,
          ∃ rd name, d.file_path = joinPath (rd ++ [name]) ∧
            ∀ c ∈ rd, c ∉ ds) := by
  intro cfg ds reg r l h
  refine ⟨loadTriples_avoid h r l, ?_⟩
  intro docs hld d hd
  rcases load_mem hld hd with ⟨t, ht, f, hf, ds1, h1, hd1⟩
  rcases processFile_doc_fields h1 hd1 with ⟨-, hpath, -⟩
  exact ⟨t.1, f.1, hpath, loadTriples_avoid h r l t ht⟩

/-- Claim C7, witness. -/
theorem c7_witness :
    ("src" : String) ∉ ["node_modules"] :=
  (c7_ignored_directories_pruned ⟨false, false, none, some ["node_modules"]⟩
      ["node_modules"] (fun _ => none) true
      (fsList
        [.dir "src" true (fsList [.file "main.py" (some [112])]),
         .dir "node_modules" true (fsList [.file "x.js" (some [118])])])
      rfl).1
    (["src"], [("main.py", some [112])]) (by decide) "src" (by decide)

/-- Claim C8, counterexample. The spec says `get_file_extension` returns
the empty string for a file name with no extension; the code builds
`f".\x7b...\x7d"`, so a name with no extension (splitext extension `""`)
yields the one-character string `"."`, not `""`. -/
theorem c8_counterexample :
    splitextExt "README" = "" ∧ get_file_extension "README" = "."
    ∧ ("." : String) ≠ "" := by
  refine ⟨by decide, by decide, by decide⟩

/-- Claim C8, amended: `get_file_extension` is a pure function that
always returns a string starting with the separator `"."`; when the name
has an extension (splitext returns `"." ++ e`), the result is `"."`
followed by the lowercased extension body; when the name has no extension
it returns the one-character string `"."` (not the empty string). -/
theorem c8_extension_lowercased_lone_dot_when_absent :
    ∀ (f : String),
      (get_file_extension f).data.head? = some '.'
      ∧ (splitextExt f = "" → get_file_extension f = ".")
      ∧ (∀ e, splitextExt f = "." ++ e →
          get_file_extension f = "." ++ strLower e) := by
  intro f
  refine ⟨rfl, ?_, ?_⟩
  · intro h
    unfold get_file_extension
    rw [h]
    rfl
  · intro e he
    unfold get_file_extension
    rw [he]
    rfl

/-- Claim C8, witness. -/
theorem c8_witness :
    get_file_extension "README" = "."
    ∧ get_file_extension "Report.PDF" = "." ++ strLower "PDF" :=
  ⟨(c8_extension_lowercased_lone_dot_when_absent "README").2.1 (by decide),
   (c8_extension_lowercased_lone_dot_when_absent "Report.PDF").2.2 "PDF" (by decide)⟩

/-- Claim C9: with `ignore_file_extensions` configured, a file whose
extension is in the set contributes no Document via either path — the
`continue` fires before the file is opened, so the lemma holds even for a
file whose content could not be read — and no Document of a successful
load has a `file_path` with an ignored extension. -/
theorem c9_ignored_extensions_filtered_before_read :
    ∀ (cfg : LoaderConfig) (exts : List String),
      cfg.ignore_file_extensions = some exts →
      (∀ (reg : Registry) (rd : List String) (n : String)
          (c : Option (List Nat)),
          get_file_extension (joinPath (rd ++ [n])) ∈ exts →
          processFile cfg reg rd (n, c) = .ok [])
      ∧ (∀ (reg : Registry) (r : Bool) (l : FSList) (docs : List Document),
          load_data cfg reg r l = .ok docs →
          ∀ d ∈ docs, get_file_extension d.file_path ∉ exts) := by
  intro cfg exts h
  constructor
  · intro reg rd n c hmem
    refine processFile_ignored reg c ?_
    rw [extIgnoredB, h]
    simpa using hmem
  · intro reg r l docs hld d hd
    rcases load_mem hld hd with ⟨t, ht, f, hf, ds1, h1, hd1⟩
    rcases processFile_mem h1 hd1 with ⟨hig, -⟩
    rcases processFile_doc_fields h1 hd1 with ⟨-, hpath, -⟩
    rw [hpath]
    rw [extIgnoredB, h] at hig
    simpa using hig

/-- Claim C9, witness. -/
theorem c9_witness :
    processFile ⟨true, false, some [".png"], none⟩ (fun _ => none) []
      ("image.png", none) = .ok [] :=
  (c9_ignored_extensions_filtered_before_read
      ⟨true, false, some [".png"], none⟩ [".png"] rfl).1
    (fun _ => none) [] "image.png" none (by decide)

/-- Claim C10: a Document returned by `_parse_supported_file` at the
`load_data` call site (which passes `tree_sha=None` and
`tree_path=rel_path`) has `doc_id=None` and `file_name` equal to the
relative path — the same value as `file_path`; a raw-decode Document has
`file_name` equal to the base file name; and every Document a file
contributes arises from exactly one of these two shapes. -/
theorem c10_doc_id_null_file_name_values :
    (∀ (reg : Registry) (p : String) (c : List Nat) (d : Document),
        parse_supported_file reg p c none p = some d →
        d.doc_id = none ∧ d.file_name = p ∧ d.file_path = p)
    ∧ (∀ (rd : List String) (n : String) (s : String),
        (rawDocument rd n s).doc_id = none ∧ (rawDocument rd n s).file_name = n)
    ∧ (∀ (cfg : LoaderConfig) (reg : Registry) (rd : List String) (n : String)
        (c : List Nat) (ds : List Document),
        processFile cfg reg rd (n, some c) = .ok ds → ∀ d ∈ ds,
          parse_supported_file reg (joinPath (rd ++ [n])) c none
            (joinPath (rd ++ [n])) = some d
          ∨ ∃ s, utf8Decode c = some s ∧ d = rawDocument rd n s) := by
  refine ⟨?_, ?_, ?_⟩
  · intro reg p c d hp
    rcases parse_supported_file_eq_some hp with ⟨x, segs, -, -, hdd⟩
    subst hdd
    exact ⟨rfl, rfl, rfl⟩
  · intro rd n s
    exact ⟨rfl, rfl⟩
  · intro cfg reg rd n c ds h d hd
    rcases processFile_mem h hd with ⟨-, c1, hc1, hor⟩
    injection hc1 with hc1
    subst hc1
    exact hor

/-- Claim C10, witness. -/
theorem c10_witness :
    (⟨"x", none, "a.md", "a.md"⟩ : Document).doc_id = none
    ∧ (⟨"x", none, "a.md", "a.md"⟩ : Document).file_name = "a.md"
    ∧ (⟨"x", none, "a.md", "a.md"⟩ : Document).file_path = "a.md" :=
  c10_doc_id_null_file_name_values.1
    (fun e => if e = ".md" then some (fun _ => ParseOutcome.segments ["x"]) else none)
    "a.md" [1, 2] ⟨"x", none, "a.md", "a.md"⟩ rfl

end LocalGithubRepo
